import Mathlib

/-!
Shallow embedding of `src/qanta/guesser/dan/util.py` (utility functions of a
DAN-based question-answering guesser): embedding construction and caching,
label-class registries, sequence padding/truncation, length computation and
batch generation.  Python lists become Lean `List`s, numpy 1-D arrays become
`List Int`, 2-D arrays become `List (List Int)` (or `List (List ℚ)` where the
values are float vectors), Python dicts become association lists where a later
binding shadows an earlier one, in-place mutation becomes explicit state
passing (the updated value is returned), exceptions become `Except String`,
and the file system touched by `load_embeddings` becomes an explicit record of
optional cache contents.
-/

namespace DanUtil

/-- Python dict lookup on an association list of successive assignments:
the LAST binding of a key wins, mirroring `d[k] = v` overwriting. -/
def dget (d : List (String × Nat)) (k : String) : Option Nat :=
  (d.reverse.find? (fun p => p.1 = k)).map Prod.snd

/-- Python `k in d` membership test for the same dict model. -/
def dmem (d : List (String × Nat)) (k : String) : Bool :=
  (dget d k).isSome

/-! ## `tf_format`

Source:
```python
def tf_format(x_data, max_len, zero_index):
    for i in range(len(x_data)):
        row = x_data[i]
        while len(row) < max_len:
            row.append(zero_index)
        x_data[i] = x_data[i][:max_len]
    return x_data
```
The `while` loop appends one `zero_index` at a time; it is embedded with a
fuel argument (`max_len` steps always suffice) so that it stays structurally
recursive and computable by the kernel. -/

/-- One-step-at-a-time padding loop of `tf_format`:
`while len(row) < max_len: row.append(zero_index)`. -/
def padRowGo (zero_index : Int) (max_len : Nat) : Nat → List Int → List Int
  | 0, row => row
  | fuel + 1, row =>
    if row.length < max_len then padRowGo zero_index max_len fuel (row ++ [zero_index])
    else row

/-- `tf_format(x_data, max_len, zero_index)`: pad each row with `zero_index`
until it has `max_len` elements, then truncate it to its first `max_len`
elements; the mutated collection is also the returned value, so the embedding
returns the new collection. -/
def tf_format (x_data : List (List Int)) (max_len : Nat) (zero_index : Int) :
    List (List Int) :=
  x_data.map (fun row => (padRowGo zero_index max_len max_len row).take max_len)

/-! ## `compute_lengths`

Source: `return np.array([max(1, len(x)) for x in x_data])`. -/

/-- `compute_lengths(x_data)`. -/
def compute_lengths (x_data : List (List Int)) : List Nat :=
  x_data.map (fun x => max 1 x.length)

/-! ## Label class registries

Source:
```python
def compute_ans_type_classes(properties):
    i_to_class = ['abs', 'anim', 'char', 'event', 'org', 'people', 'place', 'work', 'missing']
    class_to_i = {key: index for index, key in enumerate(i_to_class)}
    for prop in properties:
        if prop['ans_type'] not in class_to_i:
            prop['ans_type'] = 'missing'
    return i_to_class, class_to_i
```
The records are mutated in place; the embedding returns the updated record
list alongside the two return values. -/

/-- An example record: a mapping with at least the fields `ans_type`,
`category` and `gender`. -/
structure ExRecord where
  ans_type : String
  category : String
  gender : String
deriving DecidableEq, Repr

/-- `{key: index for index, key in enumerate(i_to_class)}` as an
assignment list. -/
def enumDict (i_to_class : List String) : List (String × Nat) :=
  i_to_class.enum.map (fun p => (p.2, p.1))

/-- `compute_ans_type_classes(properties)`; the third component is the record
list after the in-place normalization. -/
def compute_ans_type_classes (properties : List ExRecord) :
    List String × List (String × Nat) × List ExRecord :=
  let i_to_class := ["abs", "anim", "char", "event", "org", "people", "place",
                     "work", "missing"]
  let class_to_i := enumDict i_to_class
  (i_to_class, class_to_i,
    properties.map (fun prop =>
      if dmem class_to_i prop.ans_type then prop
      else { prop with ans_type := "missing" }))

/-- `compute_category_classes(properties)`. -/
def compute_category_classes (properties : List ExRecord) :
    List String × List (String × Nat) × List ExRecord :=
  let i_to_class := ["Fine_Arts", "History", "Literature", "Other", "Science",
                     "Social_Science", "missing"]
  let class_to_i := enumDict i_to_class
  (i_to_class, class_to_i,
    properties.map (fun prop =>
      if dmem class_to_i prop.category then prop
      else { prop with category := "missing" }))

/-- `compute_gender_classes(properties)`. -/
def compute_gender_classes (properties : List ExRecord) :
    List String × List (String × Nat) × List ExRecord :=
  let i_to_class := ["male", "female", "non_person", "missing"]
  let class_to_i := enumDict i_to_class
  (i_to_class, class_to_i,
    properties.map (fun prop =>
      if dmem class_to_i prop.gender then prop
      else { prop with gender := "missing" }))

/-! ## `create_batches`

Source (abridged):
```python
def create_batches(batch_size, x_data, y_data, x_lengths,
                   ans_type_labels, category_labels, gender_labels,
                   pad=False, shuffle=True):
    if type(x_data) != np.ndarray or type(y_data) != np.ndarray:
        raise ValueError('x and y must be numpy arrays')
    if len(x_data) != len(y_data):
        raise ValueError('x and y must have the same dimension')
    n = len(x_data)
    order = list(range(n))
    if shuffle:
        np.random.shuffle(order)
    for i in range(0, n, batch_size):
        if len(order[i:i + batch_size]) == batch_size:
            yield (x_data[order[i:i+batch_size]], ...)
        elif pad:
            yield (np.vstack((x_data[order[i:i+batch_size]], np.zeros(...))), ...)
        else:
            break
```
The dynamic `type(...) != np.ndarray` check is modelled with a tagged value
(`NpValue`), the outcome of `np.random.shuffle` with an oracle argument
`perm`, the lazily raised `ValueError`s with `Except`, and the generator with
the list of all batches it yields.  The loop steps `i` by `batch_size`; the
embedding recurses on the remaining suffix of `order` with a fuel argument
(`order.length + 1` steps always suffice for a positive `batch_size`) so it
stays computable by the kernel. -/

/-- A value that is either a real `np.ndarray` or some other Python sequence,
recording the runtime type tag tested by `type(v) != np.ndarray`. -/
inductive NpValue (α : Type) where
  | ndarray (data : List α)
  | pyList (data : List α)
deriving DecidableEq, Repr

/-- The underlying sequence of an `NpValue`. -/
def NpValue.data : NpValue α → List α
  | .ndarray d => d
  | .pyList d => d

/-- Whether `type(v) == np.ndarray`. -/
def NpValue.isNdarray : NpValue α → Bool
  | .ndarray _ => true
  | .pyList _ => false

/-- The six parallel input arrays of `create_batches` after validation. -/
structure BatchInput where
  x : List (List Int)
  y : List Int
  xLengths : List Int
  ansTypeLabels : List Int
  categoryLabels : List Int
  genderLabels : List Int
deriving DecidableEq, Repr

/-- One yielded six-tuple `(x_batch, y_batch, x_batch_lengths, ans_type_batch,
category_batch, gender_batch)`. -/
structure Batch where
  x : List (List Int)
  y : List Int
  xLengths : List Int
  ansTypeLabels : List Int
  categoryLabels : List Int
  genderLabels : List Int
deriving DecidableEq, Repr

/-- numpy fancy indexing `arr[window]` on a 1-D array. -/
def fancy1 (arr : List Int) (w : List Nat) : List Int :=
  w.map (fun j => arr.getD j 0)

/-- numpy fancy indexing `arr[window]` on a 2-D array. -/
def fancy2 (arr : List (List Int)) (w : List Nat) : List (List Int) :=
  w.map (fun j => arr.getD j [])

/-- The six-tuple yielded for a full window `w` of indices. -/
def mkBatch (inp : BatchInput) (w : List Nat) : Batch :=
  { x := fancy2 inp.x w
    y := fancy1 inp.y w
    xLengths := fancy1 inp.xLengths w
    ansTypeLabels := fancy1 inp.ansTypeLabels w
    categoryLabels := fancy1 inp.categoryLabels w
    genderLabels := fancy1 inp.genderLabels w }

/-- The six-tuple yielded for an undersized final window `w` when `pad` is
set: each array is extended with zeros up to `batch_size` along its leading
dimension (`np.vstack`/`np.hstack` with `np.zeros`). -/
def mkPadBatch (inp : BatchInput) (batch_size : Nat) (w : List Nat) : Batch :=
  let size := w.length
  let width := (inp.x.headD []).length
  { x := fancy2 inp.x w ++ List.replicate (batch_size - size) (List.replicate width 0)
    y := fancy1 inp.y w ++ List.replicate (batch_size - size) 0
    xLengths := fancy1 inp.xLengths w ++ List.replicate (batch_size - size) 0
    ansTypeLabels := fancy1 inp.ansTypeLabels w ++ List.replicate (batch_size - size) 0
    categoryLabels := fancy1 inp.categoryLabels w ++ List.replicate (batch_size - size) 0
    genderLabels := fancy1 inp.genderLabels w ++ List.replicate (batch_size - size) 0 }

/-- The batch loop `for i in range(0, n, batch_size)`, recursing on the
remaining suffix of `order`. -/
def createBatchesGo (batch_size : Nat) (pad : Bool) (inp : BatchInput) :
    Nat → List Nat → List Batch
  | 0, _ => []
  | fuel + 1, order =>
    if order.isEmpty then []
    else if (order.take batch_size).length = batch_size then
      mkBatch inp (order.take batch_size) ::
        createBatchesGo batch_size pad inp fuel (order.drop batch_size)
    else if pad then [mkPadBatch inp batch_size (order.take batch_size)]
    else []

/-- Just the index windows the loop yields batches for, in the `pad=False`
control flow; used to talk about which input rows a batch covers. -/
def batchWindowsGo (batch_size : Nat) : Nat → List Nat → List (List Nat)
  | 0, _ => []
  | fuel + 1, order =>
    if order.isEmpty then []
    else if (order.take batch_size).length = batch_size then
      order.take batch_size :: batchWindowsGo batch_size fuel (order.drop batch_size)
    else []

/-- The index windows of an unshuffled `create_batches` run over `n` rows with
the given `batch_size` and `pad=False`. -/
def batchWindows (batch_size n : Nat) : List (List Nat) :=
  batchWindowsGo batch_size (n + 1) (List.range n)

/-- `create_batches(batch_size, x_data, y_data, x_lengths, ans_type_labels,
category_labels, gender_labels, pad, shuffle)`.  `perm` is the oracle for the
outcome of `np.random.shuffle(order)`; it is consulted only when `shuffle`
is set.  The returned list holds every batch the generator yields; an
`Except.error` is the `ValueError` the generator raises before yielding any
batch. -/
def create_batches (batch_size : Nat)
    (x_data : NpValue (List Int)) (y_data : NpValue Int)
    (x_lengths ans_type_labels category_labels gender_labels : List Int)
    (pad : Bool) (shuffle : Bool) (perm : List Nat) : Except String (List Batch) :=
  if !x_data.isNdarray || !y_data.isNdarray then
    .error "x and y must be numpy arrays"
  else if x_data.data.length ≠ y_data.data.length then
    .error "x and y must have the same dimension"
  else
    let n := x_data.data.length
    let order := if shuffle then perm else List.range n
    let inp : BatchInput :=
      ⟨x_data.data, y_data.data, x_lengths, ans_type_labels, category_labels,
        gender_labels⟩
    .ok (createBatchesGo batch_size pad inp (order.length + 1) order)

/-! ## `create_embeddings` and `load_embeddings`

Source:
```python
def create_embeddings(vocab):
    embeddings = []
    embedding_lookup = {}
    with open(GLOVE_WE) as f:
        i = 0
        for l in f:
            splits = l.split()
            word = splits[0]
            if word in vocab:
                emb = [float(n) for n in splits[1:]]
                embeddings.append(emb)
                embedding_lookup[word] = i
                i += 1
        embeddings = np.array(embeddings)
        mean_embedding = embeddings.mean(axis=0)
        embed_with_unk = np.vstack([embeddings, mean_embedding])
        embedding_lookup['UNK'] = i
        return embed_with_unk, embedding_lookup
```
The pretrained file is modelled already split into lines of a first token and
a parsed float vector; float arithmetic is idealized as `ℚ`.  Dict updates
become appended bindings (with last-binding-wins lookup `dget`). -/

/-- numpy `embeddings.mean(axis=0)`: the column-wise mean of an equal-width
list of rows. -/
def vecMean (rows : List (List ℚ)) : List ℚ :=
  (List.range (rows.headD []).length).map
    (fun c => (rows.map (fun r => r.getD c 0)).sum / (rows.length : ℚ))

/-- The body of the reading loop of `create_embeddings` for one line of the
pretrained file: keep the line only when its first token is in `vocab`. -/
def ceStep (vocab : List String)
    (acc : List (List ℚ) × List (String × Nat) × Nat) (line : String × List ℚ) :
    List (List ℚ) × List (String × Nat) × Nat :=
  let (embeddings, embedding_lookup, i) := acc
  if line.1 ∈ vocab then
    (embeddings ++ [line.2], embedding_lookup ++ [(line.1, i)], i + 1)
  else acc

/-- `create_embeddings(vocab)` reading the given pretrained `file`. -/
def create_embeddings (vocab : List String) (file : List (String × List ℚ)) :
    List (List ℚ) × List (String × Nat) :=
  let acc := file.foldl (ceStep vocab) ([], [], 0)
  (acc.1 ++ [vecMean acc.1], acc.2.1 ++ [("UNK", acc.2.2)])

/-- The lines of the pretrained file whose first token is in the vocabulary:
exactly the lines the reading loop of `create_embeddings` keeps, in file
order. -/
def keptLines (vocab : List String) (file : List (String × List ℚ)) :
    List (String × List ℚ) :=
  file.filter (fun l => l.1 ∈ vocab)

/-- The on-disk state `load_embeddings` consults: the contents of the
temporary cache file and of the permanent cache file, when they exist. -/
structure EmbedCache where
  tmpFile : Option (List (List ℚ) × List (String × Nat))
  permFile : Option (List (List ℚ) × List (String × Nat))
deriving DecidableEq

/-- `load_embeddings(tmp_embedding_file, embedding_file, vocab)`: prefer the
temporary cache, then the permanent cache, else build fresh from the
pretrained `gloveFile` (requiring a vocabulary) and persist the result to the
temporary cache before returning.  The returned `EmbedCache` is the file
system afterwards. -/
def load_embeddings (fs : EmbedCache) (vocab : Option (List String))
    (gloveFile : List (String × List ℚ)) :
    Except String ((List (List ℚ) × List (String × Nat)) × EmbedCache) :=
  match fs.tmpFile with
  | some e => .ok (e, fs)
  | none =>
    match fs.permFile with
    | some e => .ok (e, fs)
    | none =>
      match vocab with
      | none => .error "To create fresh embeddings a vocab is needed"
      | some v =>
        let e := create_embeddings v gloveFile
        .ok (e, { fs with tmpFile := some e })

/-! ## `make_layer`

Source:
```python
def make_layer(postfix, in_tensor, n_out, op,
               n_in=None, dropout_prob=None, batch_norm=False, batch_is_training=None):
    with tf.variable_scope('layer' + postfix):
        if batch_norm and batch_is_training is None:
            raise ValueError('if using batch norm then passing a training placeholder is required')
        w = tf.get_variable('w', (in_tensor.get_shape()[1] if n_in is None else n_in, n_out),
                            dtype=tf.float32)
        if dropout_prob is not None:
            w = tf.nn.dropout(w, keep_prob=1 - dropout_prob)
        b = tf.get_variable('b', n_out, dtype=tf.float32)
        out = tf.matmul(in_tensor, w) + b
        if batch_norm:
            out = tf.contrib.layers.batch_norm(out, center=True, scale=True,
                                               is_training=batch_is_training, scope='bn', fused=True)
        out = (out if op is None else op(out))
        return out, w, b
```
Graph construction is modelled symbolically: a `TExpr` is the graph node the
TensorFlow call would build, and `make_layer` returns the `(out, w, b)` nodes
or the `ValueError`. -/

/-- A symbolic TensorFlow graph node. -/
inductive TExpr where
  | input (id : Nat) (shape1 : Nat)
  | getVariable (name : String) (rows cols : Nat)
  | getVariableVec (name : String) (n : Nat)
  | dropout (t : TExpr) (keepProb : ℚ)
  | matmul (a b : TExpr)
  | add (a b : TExpr)
  | batchNorm (t : TExpr) (center scale : Bool) (isTraining : TExpr)
deriving Repr

/-- The trailing dimension `t.get_shape()[1]` of a graph node. -/
def TExpr.shape1 : TExpr → Nat
  | .input _ s => s
  | .getVariable _ _ c => c
  | .getVariableVec _ n => n
  | .dropout t _ => t.shape1
  | .matmul _ b => b.shape1
  | .add a _ => a.shape1
  | .batchNorm t _ _ _ => t.shape1

/-- `make_layer(postfix, in_tensor, n_out, op, n_in, dropout_prob, batch_norm,
batch_is_training)`, returning the `(out, w, b)` graph nodes; the `postfix`
argument is named `nameSuffix` because `postfix` is a Lean keyword. -/
def make_layer (nameSuffix : String) (in_tensor : TExpr) (n_out : Nat)
    (op : Option (TExpr → TExpr)) (n_in : Option Nat) (dropout_prob : Option ℚ)
    (batch_norm : Bool) (batch_is_training : Option TExpr) :
    Except String (TExpr × TExpr × TExpr) :=
  let scope := "layer" ++ nameSuffix
  if batch_norm && batch_is_training.isNone then
    .error "if using batch norm then passing a training placeholder is required"
  else
    let w0 := TExpr.getVariable (scope ++ "/w") (n_in.getD in_tensor.shape1) n_out
    let w := match dropout_prob with
      | none => w0
      | some p => TExpr.dropout w0 (1 - p)
    let b := TExpr.getVariableVec (scope ++ "/b") n_out
    let affine := TExpr.add (TExpr.matmul in_tensor w) b
    let normed :=
      if batch_norm then
        TExpr.batchNorm affine true true (batch_is_training.getD (TExpr.input 0 0))
      else affine
    let out := match op with
      | none => normed
      | some f => f normed
    .ok (out, w, b)

end DanUtil

namespace DanUtil

/-! ## Basic facts about the padding loop -/

/-- With enough fuel, the `while` loop of `tf_format` pads the row on the
right with `zero_index` up to length `max_len`. -/
theorem padRowGo_eq (zero_index : Int) (max_len : Nat) :
    ∀ fuel row, max_len - row.length ≤ fuel →
      padRowGo zero_index max_len fuel row =
        row ++ List.replicate (max_len - row.length) zero_index := by
  intro fuel
  induction fuel with
  | zero =>
    intro row h
    simp only [Nat.le_zero] at h
    simp [padRowGo, h]
  | succ fuel ih =>
    intro row h
    rw [padRowGo]
    by_cases hlt : row.length < max_len
    · rw [if_pos hlt]
      have h2 : max_len - (row ++ [zero_index]).length ≤ fuel := by
        simp only [List.length_append, List.length_singleton]
        omega
      rw [ih _ h2]
      simp only [List.length_append, List.length_singleton, List.append_assoc,
        List.singleton_append]
      congr 1
      have hrep : max_len - row.length = (max_len - (row.length + 1)) + 1 := by
        omega
      rw [hrep, List.replicate_succ]
    · rw [if_neg hlt]
      have : max_len - row.length = 0 := by omega
      simp [this]

/-- The fuel `max_len` used by `tf_format` is always enough. -/
theorem padRowGo_fuel (zero_index : Int) (max_len : Nat) (row : List Int) :
    padRowGo zero_index max_len max_len row =
      row ++ List.replicate (max_len - row.length) zero_index :=
  padRowGo_eq zero_index max_len max_len row (by omega)

/-- Closed form of `tf_format`: every row is right-padded then truncated. -/
theorem tf_format_eq (x_data : List (List Int)) (max_len : Nat) (z : Int) :
    tf_format x_data max_len z =
      x_data.map (fun row =>
        (row ++ List.replicate (max_len - row.length) z).take max_len) := by
  unfold tf_format
  simp [padRowGo_fuel]

/-- Every row of the output of `tf_format` has length exactly `max_len`. -/
theorem tf_format_row_length (x_data : List (List Int)) (max_len : Nat) (z : Int) :
    ∀ row ∈ tf_format x_data max_len z, row.length = max_len := by
  intro row hrow
  rw [tf_format_eq] at hrow
  rcases List.mem_map.mp hrow with ⟨r, _, rfl⟩
  simp only [List.length_take, List.length_append, List.length_replicate]
  omega

/-- The pad-then-truncate step, split by whether the row was already long
enough: long rows are truncated to their first `m` elements, short rows are
right-padded to `m`. -/
theorem padTrunc_eq_if (row : List Int) (m : Nat) (z : Int) :
    (row ++ List.replicate (m - row.length) z).take m =
      if m ≤ row.length then row.take m
      else row ++ List.replicate (m - row.length) z := by
  by_cases h : m ≤ row.length
  · simp [Nat.sub_eq_zero_of_le h, h]
  · rw [if_neg h]
    apply List.take_of_length_le
    simp only [List.length_append, List.length_replicate]
    omega

/-- The pad-then-truncate step always yields a row of length `m`. -/
theorem padTrunc_length (row : List Int) (m : Nat) (z : Int) :
    ((row ++ List.replicate (m - row.length) z).take m).length = m := by
  simp only [List.length_take, List.length_append, List.length_replicate]
  omega

/-- C3: `tf_format` normalizes every index sequence to exactly `max_len`
elements: a sequence longer than `max_len` keeps only its first `max_len`
elements, a shorter one is extended on the right with `zero_index`; the
updated collection (mutated in place in the source, hence also the return
value) is the value returned here, and
`tf_format([[1,2,3],[4]], max_len=2, zero_index=0) = [[1,2],[4,0]]`. -/
theorem tf_format_normalizes (x_data : List (List Int)) (max_len : Nat) (z : Int) :
    (tf_format x_data max_len z).length = x_data.length ∧
    (∀ j : Nat, (tf_format x_data max_len z)[j]? =
      (x_data[j]?).map (fun row =>
        if max_len ≤ row.length then row.take max_len
        else row ++ List.replicate (max_len - row.length) z)) ∧
    (∀ row ∈ tf_format x_data max_len z, row.length = max_len) ∧
    tf_format [[1, 2, 3], [4]] 2 0 = [[1, 2], [4, 0]] := by
  refine ⟨by simp [tf_format], ?_, tf_format_row_length x_data max_len z, by decide⟩
  intro j
  rw [tf_format_eq, List.getElem?_map]
  cases h : x_data[j]? with
  | none => rfl
  | some row => simp [padTrunc_eq_if]

/-- Closed instance for `tf_format_normalizes`: the second row of the example
is a member of the output and has the normalized length. -/
theorem tf_format_normalizes_witness :
    ([4, 0] : List Int) ∈ tf_format [[1, 2, 3], [4]] 2 0 ∧
      ([4, 0] : List Int).length = 2 :=
  ⟨by decide, (tf_format_normalizes [[1, 2, 3], [4]] 2 0).2.2.1 [4, 0] (by decide)⟩

/-- C4: `tf_format` is idempotent: reapplying it with the same `max_len` and
pad index yields the same result as applying it once. -/
theorem tf_format_idempotent (x_data : List (List Int)) (max_len : Nat) (z : Int) :
    tf_format (tf_format x_data max_len z) max_len z =
      tf_format x_data max_len z := by
  rw [tf_format_eq, tf_format_eq, List.map_map]
  apply List.map_congr_left
  intro row _
  show ((((row ++ List.replicate (max_len - row.length) z).take max_len) ++
      List.replicate (max_len - ((row ++ List.replicate (max_len - row.length) z).take
        max_len).length) z).take max_len) = _
  rw [padTrunc_length, Nat.sub_self, List.replicate_zero, List.append_nil]
  rw [List.take_of_length_le (le_of_eq (padTrunc_length row max_len z))]

/-- C10: `compute_lengths` returns one value per sequence, equal to
`max(1, length)`; an empty sequence is reported as length `1`. -/
theorem compute_lengths_spec (x_data : List (List Int)) :
    (compute_lengths x_data).length = x_data.length ∧
    (∀ j : Nat, (compute_lengths x_data)[j]? =
      (x_data[j]?).map (fun x => max 1 x.length)) ∧
    (∀ j : Nat, x_data[j]? = some [] →
      (compute_lengths x_data)[j]? = some 1) := by
  refine ⟨by simp [compute_lengths], ?_, ?_⟩
  · intro j
    rw [compute_lengths, List.getElem?_map]
  · intro j h
    rw [compute_lengths, List.getElem?_map, h]
    rfl

/-- Closed instance for `compute_lengths_spec`: the empty first sequence is
reported as length `1`. -/
theorem compute_lengths_spec_witness :
    (compute_lengths [[], [5, 6]])[0]? = some 1 :=
  (compute_lengths_spec [[], [5, 6]]).2.2 0 (by decide)

/-- The second components of `l.enum` are `l` itself. -/
theorem enum_map_snd_eq (l : List α) : l.enum.map Prod.snd = l := by
  rw [List.enum_eq_enumFrom, List.enumFrom_map_snd]

/-- Membership in the enumeration dict agrees with membership in the
enumerated list. -/
theorem dmem_enumDict (l : List String) (k : String) :
    dmem (enumDict l) k = true ↔ k ∈ l := by
  simp only [dmem, dget, enumDict, Option.isSome_map', List.find?_isSome,
    List.mem_reverse, List.mem_map, decide_eq_true_eq]
  constructor
  · rintro ⟨x, ⟨p, hp, rfl⟩, hk⟩
    have hmem : p.2 ∈ l.enum.map Prod.snd := List.mem_map_of_mem Prod.snd hp
    rw [enum_map_snd_eq] at hmem
    have hk2 : p.2 = k := hk
    exact hk2 ▸ hmem
  · intro hk
    have hmem : k ∈ l.enum.map Prod.snd := by rw [enum_map_snd_eq]; exact hk
    rcases List.mem_map.mp hmem with ⟨p, hp, rfl⟩
    exact ⟨(p.2, p.1), ⟨p, hp, rfl⟩, rfl⟩

/-- C5: `compute_ans_type_classes` returns the fixed nine answer-type classes
with `missing` last (`class_to_i['char'] = 2`, `class_to_i['missing'] = 8`),
overwrites the `ans_type` of every record whose value is not one of them with
exactly `"missing"` and leaves recognized values unchanged. -/
theorem compute_ans_type_classes_spec (properties : List ExRecord) :
    (compute_ans_type_classes properties).1 =
      ["abs", "anim", "char", "event", "org", "people", "place", "work",
        "missing"] ∧
    (compute_ans_type_classes properties).1.length = 9 ∧
    (compute_ans_type_classes properties).1.getLast? = some "missing" ∧
    dget (compute_ans_type_classes properties).2.1 "char" = some 2 ∧
    dget (compute_ans_type_classes properties).2.1 "missing" = some 8 ∧
    (compute_ans_type_classes properties).2.2.length = properties.length ∧
    (∀ (j : Nat) (p : ExRecord), properties[j]? = some p →
      (compute_ans_type_classes properties).2.2[j]? =
        some (if p.ans_type ∈ (compute_ans_type_classes properties).1 then p
          else { p with ans_type := "missing" })) := by
  have h1 : (compute_ans_type_classes properties).1 =
      ["abs", "anim", "char", "event", "org", "people", "place", "work",
        "missing"] := rfl
  refine ⟨rfl, rfl, rfl, rfl, rfl,
    by simp [compute_ans_type_classes], ?_⟩
  intro j p h
  rw [h1]
  show (properties.map _)[j]? = _
  rw [List.getElem?_map, h]
  simp only [Option.map_some', Option.some.injEq]
  by_cases hm : p.ans_type ∈
      ["abs", "anim", "char", "event", "org", "people", "place", "work",
        "missing"]
  · rw [if_pos ((dmem_enumDict _ _).mpr hm), if_pos hm]
  · rw [if_neg ?_, if_neg hm]
    intro hcontra
    exact hm ((dmem_enumDict _ _).mp hcontra)

/-- Closed instance for `compute_ans_type_classes_spec`: an unrecognized
`ans_type` is overwritten with `"missing"`. -/
theorem compute_ans_type_classes_spec_witness :
    (compute_ans_type_classes
        [⟨"char", "", ""⟩, ⟨"bogus", "", ""⟩]).2.2[1]? =
      some ⟨"missing", "", ""⟩ := by
  have h := (compute_ans_type_classes_spec
    [⟨"char", "", ""⟩, ⟨"bogus", "", ""⟩]).2.2.2.2.2.2 1 ⟨"bogus", "", ""⟩
    (by decide)
  simpa using h

/-- C9: `make_layer` raises its `ValueError` instead of constructing the
layer when `batch_norm` is requested and `batch_is_training` is `None`; with
`batch_norm` off no training-mode flag is required and the layer is built. -/
theorem make_layer_batch_norm_guard :
    (∀ (ns : String) (in_tensor : TExpr) (n_out : Nat)
        (op : Option (TExpr → TExpr)) (n_in : Option Nat)
        (dropout_prob : Option ℚ),
      make_layer ns in_tensor n_out op n_in dropout_prob true none =
        .error
          "if using batch norm then passing a training placeholder is required") ∧
    (∀ (ns : String) (in_tensor : TExpr) (n_out : Nat)
        (op : Option (TExpr → TExpr)) (n_in : Option Nat)
        (dropout_prob : Option ℚ) (bit : Option TExpr),
      ∃ out w b, make_layer ns in_tensor n_out op n_in dropout_prob false bit =
        .ok (out, w, b)) := by
  constructor
  · intro ns in_tensor n_out op n_in dropout_prob
    rfl
  · intro ns in_tensor n_out op n_in dropout_prob bit
    cases dropout_prob <;> cases op <;> exact ⟨_, _, _, rfl⟩

/-- C8: when neither the temporary nor the permanent cache file exists,
`load_embeddings` raises a `ValueError` if no vocabulary is supplied; with a
vocabulary it builds the embeddings fresh and persists them to the temporary
cache path before returning them. -/
theorem load_embeddings_fresh (fs : EmbedCache)
    (glove : List (String × List ℚ))
    (htmp : fs.tmpFile = none) (hperm : fs.permFile = none) :
    load_embeddings fs none glove =
      .error "To create fresh embeddings a vocab is needed" ∧
    (∀ v : List String, load_embeddings fs (some v) glove =
      .ok (create_embeddings v glove,
        { tmpFile := some (create_embeddings v glove), permFile := none })) := by
  have hfs : fs = ⟨none, none⟩ := by
    cases fs
    simp_all
  rw [hfs]
  exact ⟨rfl, fun v => rfl⟩

/-- Closed instance for `load_embeddings_fresh`: an empty file system and no
vocabulary produce the configuration error. -/
theorem load_embeddings_fresh_witness :
    load_embeddings ⟨none, none⟩ none [] =
      .error "To create fresh embeddings a vocab is needed" :=
  (load_embeddings_fresh ⟨none, none⟩ [] rfl rfl).1

/-- C7: `create_batches` raises its `ValueError`s before any batch is
yielded exactly when `x_data` or `y_data` is not an `np.ndarray` or their
lengths differ; on ndarrays of equal length no validation error is raised. -/
theorem create_batches_validation :
    (∀ (bs : Nat) (x : NpValue (List Int)) (y : NpValue Int)
        (xl a c g : List Int) (pad shuffle : Bool) (perm : List Nat),
      x.isNdarray = false ∨ y.isNdarray = false →
      create_batches bs x y xl a c g pad shuffle perm =
        .error "x and y must be numpy arrays") ∧
    (∀ (bs : Nat) (x : NpValue (List Int)) (y : NpValue Int)
        (xl a c g : List Int) (pad shuffle : Bool) (perm : List Nat),
      x.isNdarray = true → y.isNdarray = true →
      x.data.length ≠ y.data.length →
      create_batches bs x y xl a c g pad shuffle perm =
        .error "x and y must have the same dimension") ∧
    (∀ (bs : Nat) (x : NpValue (List Int)) (y : NpValue Int)
        (xl a c g : List Int) (pad shuffle : Bool) (perm : List Nat),
      x.isNdarray = true → y.isNdarray = true →
      x.data.length = y.data.length →
      ∃ batches, create_batches bs x y xl a c g pad shuffle perm =
        .ok batches) := by
  refine ⟨?_, ?_, ?_⟩
  · rintro bs x y xl a c g pad shuffle perm (h | h) <;>
      simp [create_batches, h]
  · intro bs x y xl a c g pad shuffle perm hx hy hne
    simp [create_batches, hx, hy, hne]
  · intro bs x y xl a c g pad shuffle perm hx hy heq
    refine ⟨createBatchesGo bs pad ⟨x.data, y.data, xl, a, c, g⟩
      ((if shuffle then perm else List.range x.data.length).length + 1)
      (if shuffle then perm else List.range x.data.length), ?_⟩
    simp [create_batches, hx, hy, heq]

/-- Closed instance for `create_batches_validation`: a plain Python list for
`x_data` is rejected with the array-type `ValueError`. -/
theorem create_batches_validation_witness :
    create_batches 1 (NpValue.pyList [[1]]) (NpValue.ndarray [2])
      [] [] [] [] false false [] = .error "x and y must be numpy arrays" :=
  create_batches_validation.1 1 (NpValue.pyList [[1]]) (NpValue.ndarray [2])
    [] [] [] [] false false [] (Or.inl rfl)

/-! ## Facts about the batch loop -/

/-- With `pad=False`, the batch loop yields exactly `mkBatch` of each index
window. -/
theorem createBatchesGo_eq_map_windows (b : Nat) (inp : BatchInput) :
    ∀ fuel order, createBatchesGo b false inp fuel order =
      (batchWindowsGo b fuel order).map (mkBatch inp) := by
  intro fuel
  induction fuel with
  | zero => intro order; rfl
  | succ fuel ih =>
    intro order
    rw [createBatchesGo, batchWindowsGo]
    by_cases hemp : order.isEmpty
    · simp [hemp]
    · rw [if_neg hemp, if_neg hemp]
      by_cases hw : (order.take b).length = b
      · rw [if_pos hw, if_pos hw]
        simp [ih]
      · rw [if_neg hw, if_neg hw]
        simp

/-- With enough fuel and a positive `batch_size`, the `pad=False` loop yields
exactly `⌊order.length / b⌋` windows: the undersized final window is
dropped. -/
theorem batchWindowsGo_length (b : Nat) (hb : 0 < b) :
    ∀ fuel order, order.length < fuel →
      (batchWindowsGo b fuel order).length = order.length / b := by
  intro fuel
  induction fuel with
  | zero => intro order h; omega
  | succ fuel ih =>
    intro order h
    rw [batchWindowsGo]
    by_cases hemp : order.isEmpty
    · have hnil : order = [] := List.isEmpty_iff.mp hemp
      simp [hemp, hnil]
    · rw [if_neg hemp]
      have hne : order ≠ [] := fun hh => hemp (by simp [hh])
      have hpos : 0 < order.length := List.length_pos.mpr hne
      by_cases hful : b ≤ order.length
      · have hw : (order.take b).length = b := by
          simp only [List.length_take]
          omega
        rw [if_pos hw]
        simp only [List.length_cons]
        rw [ih (order.drop b) (by simp only [List.length_drop]; omega)]
        simp only [List.length_drop]
        rw [Nat.div_eq_sub_div hb hful]
      · have hw : (order.take b).length ≠ b := by
          simp only [List.length_take]
          omega
        rw [if_neg hw]
        simp only [List.length_nil]
        rw [Nat.div_eq_of_lt (by omega)]

/-- Every window the `pad=False` loop yields has exactly `b` indices. -/
theorem batchWindowsGo_sizes (b : Nat) :
    ∀ fuel order, ∀ w ∈ batchWindowsGo b fuel order, w.length = b := by
  intro fuel
  induction fuel with
  | zero => intro order w hw; cases hw
  | succ fuel ih =>
    intro order w hw
    rw [batchWindowsGo] at hw
    by_cases hemp : order.isEmpty
    · rw [if_pos hemp] at hw
      cases hw
    · rw [if_neg hemp] at hw
      by_cases hfull : (order.take b).length = b
      · rw [if_pos hfull] at hw
        rcases List.mem_cons.mp hw with rfl | htail
        · exact hfull
        · exact ih (order.drop b) w htail
      · rw [if_neg hfull] at hw
        cases hw

/-- When `b` divides the number of rows, concatenating all yielded windows
reconstructs the index order exactly. -/
theorem batchWindowsGo_join (b : Nat) (hb : 0 < b) :
    ∀ fuel order, order.length < fuel → b ∣ order.length →
      (batchWindowsGo b fuel order).flatten = order := by
  intro fuel
  induction fuel with
  | zero => intro order h _; omega
  | succ fuel ih =>
    intro order h hdvd
    rw [batchWindowsGo]
    by_cases hemp : order.isEmpty
    · have hnil : order = [] := List.isEmpty_iff.mp hemp
      simp [hemp, hnil]
    · rw [if_neg hemp]
      have hne : order ≠ [] := fun hh => hemp (by simp [hh])
      have hpos : 0 < order.length := List.length_pos.mpr hne
      by_cases hful : b ≤ order.length
      · have hw : (order.take b).length = b := by
          simp only [List.length_take]
          omega
        rw [if_pos hw]
        rw [List.flatten_cons]
        rw [ih (order.drop b)
          (by simp only [List.length_drop]; omega)
          (by simp only [List.length_drop]; exact Nat.dvd_sub' hdvd dvd_rfl)]
        exact List.take_append_drop b order
      · exfalso
        have : order.length = 0 := Nat.eq_zero_of_dvd_of_lt hdvd (by omega)
        omega

/-- Every field of a full-window batch has the window's leading dimension. -/
theorem mkBatch_dims (inp : BatchInput) (w : List Nat) :
    (mkBatch inp w).x.length = w.length ∧
    (mkBatch inp w).y.length = w.length ∧
    (mkBatch inp w).xLengths.length = w.length ∧
    (mkBatch inp w).ansTypeLabels.length = w.length ∧
    (mkBatch inp w).categoryLabels.length = w.length ∧
    (mkBatch inp w).genderLabels.length = w.length := by
  simp [mkBatch, fancy1, fancy2]

/-- C6: with `pad=False`, when `batch_size` does not divide the input length
the undersized final window is silently dropped: `create_batches` yields
exactly `⌊n / batch_size⌋` batches, each of leading dimension exactly
`batch_size` in all six arrays. -/
theorem create_batches_drops_undersized (b n : Nat)
    (x : List (List Int)) (y xl a c g : List Int)
    (shuffle : Bool) (perm : List Nat)
    (hb : 0 < b) (hx : x.length = n) (hy : y.length = n)
    (hperm : perm.length = n) (hndvd : ¬ b ∣ n) :
    ∃ batches,
      create_batches b (.ndarray x) (.ndarray y) xl a c g false shuffle perm =
        .ok batches ∧
      batches.length = n / b ∧
      (∀ batch ∈ batches, batch.x.length = b ∧ batch.y.length = b ∧
        batch.xLengths.length = b ∧ batch.ansTypeLabels.length = b ∧
        batch.categoryLabels.length = b ∧ batch.genderLabels.length = b) := by
  have horder : (if shuffle then perm else List.range x.length).length = n := by
    cases shuffle <;> simp [hperm, hx]
  refine ⟨createBatchesGo b false ⟨x, y, xl, a, c, g⟩
    ((if shuffle then perm else List.range x.length).length + 1)
    (if shuffle then perm else List.range x.length), ?_, ?_, ?_⟩
  · simp [create_batches, NpValue.isNdarray, NpValue.data, hx, hy]
  · rw [createBatchesGo_eq_map_windows, List.length_map,
      batchWindowsGo_length b hb _ _ (by omega), horder]
  · intro batch hbatch
    rw [createBatchesGo_eq_map_windows] at hbatch
    rcases List.mem_map.mp hbatch with ⟨w, hwmem, rfl⟩
    have hwlen : w.length = b :=
      batchWindowsGo_sizes b _ _ w hwmem
    have hd := mkBatch_dims ⟨x, y, xl, a, c, g⟩ w
    rw [hwlen] at hd
    exact hd

/-- Closed instance for `create_batches_drops_undersized`: five rows with
`batch_size=2` yield `⌊5/2⌋ = 2` full batches. -/
theorem create_batches_drops_undersized_witness :
    ∃ batches,
      create_batches 2 (.ndarray [[1], [2], [3], [4], [5]])
          (.ndarray [1, 2, 3, 4, 5]) [1, 1, 1, 1, 1] [0, 0, 0, 0, 0]
          [0, 0, 0, 0, 0] [0, 0, 0, 0, 0] false false [0, 1, 2, 3, 4] =
        .ok batches ∧
      batches.length = 5 / 2 ∧
      (∀ batch ∈ batches, batch.x.length = 2 ∧ batch.y.length = 2 ∧
        batch.xLengths.length = 2 ∧ batch.ansTypeLabels.length = 2 ∧
        batch.categoryLabels.length = 2 ∧ batch.genderLabels.length = 2) :=
  create_batches_drops_undersized 2 5 [[1], [2], [3], [4], [5]]
    [1, 2, 3, 4, 5] [1, 1, 1, 1, 1] [0, 0, 0, 0, 0] [0, 0, 0, 0, 0]
    [0, 0, 0, 0, 0] false [0, 1, 2, 3, 4]
    (by decide) (by decide) (by decide) (by decide) (by decide)

/-- C2: with `shuffle=False`, `pad=False` and `batch_size` dividing the input
length `n`, `create_batches` yields exactly `n / batch_size` batches taken in
order over the consecutive non-overlapping index windows, whose concatenation
reconstructs `{0, …, n-1}` exactly once each; with `n=4`, `batch_size=2` the
windows are `[0,1]` then `[2,3]`. -/
theorem create_batches_exact_cover (b n : Nat)
    (x : List (List Int)) (y xl a c g : List Int) (perm : List Nat)
    (hb : 0 < b) (hdvd : b ∣ n) (hx : x.length = n) (hy : y.length = n) :
    create_batches b (.ndarray x) (.ndarray y) xl a c g false false perm =
      .ok ((batchWindows b n).map (mkBatch ⟨x, y, xl, a, c, g⟩)) ∧
    (batchWindows b n).length = n / b ∧
    (batchWindows b n).flatten = List.range n ∧
    batchWindows 2 4 = [[0, 1], [2, 3]] := by
  refine ⟨?_, ?_, ?_, by decide⟩
  · have h1 : create_batches b (.ndarray x) (.ndarray y) xl a c g false false
        perm =
        .ok (createBatchesGo b false ⟨x, y, xl, a, c, g⟩ (n + 1)
          (List.range n)) := by
      simp [create_batches, NpValue.isNdarray, NpValue.data, hx, hy]
    rw [h1, createBatchesGo_eq_map_windows]
    rfl
  · rw [batchWindows, batchWindowsGo_length b hb _ _ (by simp)]
    simp
  · exact batchWindowsGo_join b hb _ _ (by simp) (by simpa using hdvd)

/-- Closed instance for `create_batches_exact_cover` at the spec's example:
four rows, `batch_size=2`, no shuffling. -/
theorem create_batches_exact_cover_witness :
    create_batches 2 (.ndarray [[1], [2], [3], [4]])
        (.ndarray [10, 20, 30, 40]) [3, 3, 3, 3] [0, 0, 0, 0] [1, 1, 1, 1]
        [2, 2, 2, 2] false false [] =
      .ok ((batchWindows 2 4).map
        (mkBatch ⟨[[1], [2], [3], [4]], [10, 20, 30, 40], [3, 3, 3, 3],
          [0, 0, 0, 0], [1, 1, 1, 1], [2, 2, 2, 2]⟩)) :=
  (create_batches_exact_cover 2 4 [[1], [2], [3], [4]] [10, 20, 30, 40]
    [3, 3, 3, 3] [0, 0, 0, 0] [1, 1, 1, 1] [2, 2, 2, 2] []
    (by decide) (by decide) (by decide) (by decide)).1

/-! ## Facts about the embedding construction -/

/-- Unfolding the reading loop of `create_embeddings`: starting from any
accumulator, it appends the kept vectors, the kept `(word, index)` bindings
indexed from `i` in file order, and advances `i` by the number of kept
lines. -/
theorem ceStep_foldl (vocab : List String) :
    ∀ (file : List (String × List ℚ)) (es : List (List ℚ))
      (lk : List (String × Nat)) (i : Nat),
      file.foldl (ceStep vocab) (es, lk, i) =
        (es ++ (keptLines vocab file).map Prod.snd,
         lk ++ ((keptLines vocab file).enumFrom i).map (fun p => (p.2.1, p.1)),
         i + (keptLines vocab file).length) := by
  intro file
  induction file with
  | nil =>
    intro es lk i
    simp [keptLines]
  | cons line rest ih =>
    intro es lk i
    rw [List.foldl_cons]
    by_cases hmem : line.1 ∈ vocab
    · rw [show ceStep vocab (es, lk, i) line =
        (es ++ [line.2], lk ++ [(line.1, i)], i + 1) from by simp [ceStep, hmem]]
      rw [ih]
      have hk : keptLines vocab (line :: rest) = line :: keptLines vocab rest := by
        simp [keptLines, List.filter_cons, hmem]
      rw [hk]
      simp only [List.map_cons, List.enumFrom_cons, List.length_cons,
        List.append_assoc, List.singleton_append, Prod.mk.injEq, true_and]
      omega
    · rw [show ceStep vocab (es, lk, i) line = (es, lk, i) from by
        simp [ceStep, hmem]]
      rw [ih]
      have hk : keptLines vocab (line :: rest) = keptLines vocab rest := by
        simp [keptLines, List.filter_cons, hmem]
      rw [hk]

/-- Closed form of `create_embeddings`: the kept vectors in file order plus
the mean row, and the kept `(word, index)` bindings plus the final `UNK`
binding. -/
theorem create_embeddings_eq (vocab : List String)
    (file : List (String × List ℚ)) :
    create_embeddings vocab file =
      ((keptLines vocab file).map Prod.snd ++
        [vecMean ((keptLines vocab file).map Prod.snd)],
       (keptLines vocab file).enum.map (fun p => (p.2.1, p.1)) ++
        [("UNK", (keptLines vocab file).length)]) := by
  unfold create_embeddings
  rw [ceStep_foldl]
  simp [List.enum_eq_enumFrom]

/-- A binding appended last wins the dict lookup. -/
theorem dget_append_last (L : List (String × Nat)) (k : String) (v : Nat) :
    dget (L ++ [(k, v)]) k = some v := by
  unfold dget
  rw [List.reverse_append, List.reverse_singleton, List.singleton_append,
    List.find?_cons_of_pos _ (by simp)]
  rfl

/-- A binding appended last for a different key does not affect the lookup. -/
theorem dget_append_single_ne (L : List (String × Nat)) (k k' : String)
    (v : Nat) (h : k' ≠ k) : dget (L ++ [(k', v)]) k = dget L k := by
  unfold dget
  rw [List.reverse_append, List.reverse_singleton, List.singleton_append,
    List.find?_cons_of_neg _ (by simp [h])]

/-- Lookup after a front insertion: later bindings shadow the first one. -/
theorem dget_cons (p : String × Nat) (L : List (String × Nat)) (k : String) :
    dget (p :: L) k =
      (dget L k).or (if p.1 = k then some p.2 else none) := by
  unfold dget
  rw [List.reverse_cons, List.find?_append]
  cases hfind : L.reverse.find? (fun q => q.1 = k) with
  | none =>
    by_cases hpk : p.1 = k <;> simp [hfind, hpk]
  | some q =>
    simp [hfind]

/-- A key bound nowhere in the dict looks up to `none`. -/
theorem dget_eq_none (L : List (String × Nat)) (k : String)
    (h : k ∉ L.map Prod.fst) : dget L k = none := by
  have hfind : L.reverse.find? (fun q => q.1 = k) = none := by
    rw [List.find?_eq_none]
    intro x hx
    simp only [decide_eq_true_eq]
    intro hk
    exact h (hk ▸ List.mem_map_of_mem Prod.fst (List.mem_reverse.mp hx))
  unfold dget
  rw [hfind]
  rfl

/-- In a dict whose keys are pairwise distinct, the `j`-th binding is what
the lookup of its key returns. -/
theorem dget_get_of_nodup :
    ∀ (L : List (String × Nat)), (L.map Prod.fst).Nodup →
      ∀ j (hj : j < L.length),
        dget L (L.get ⟨j, hj⟩).1 = some (L.get ⟨j, hj⟩).2 := by
  intro L
  induction L with
  | nil =>
    intro _ j hj
    simp at hj
  | cons p L ih =>
    intro hnodup j hj
    rw [List.map_cons] at hnodup
    have hsplit := List.nodup_cons.mp hnodup
    cases j with
    | zero =>
      have hget : (p :: L).get ⟨0, hj⟩ = p := rfl
      rw [hget, dget_cons, dget_eq_none L p.1 hsplit.1]
      simp
    | succ j =>
      have hjL : j < L.length := Nat.lt_of_succ_lt_succ hj
      have hget : (p :: L).get ⟨j + 1, hj⟩ = L.get ⟨j, hjL⟩ := rfl
      rw [hget, dget_cons, ih hsplit.2 j hjL]
      rfl

/-- C1 (amended): provided the kept tokens of the pretrained file are
pairwise distinct (as in a genuine word→vector table) and none of them is
the literal string `UNK`, `create_embeddings` assigns the `j`-th kept token
the row index `j` — a unique index in `[0, |kept|)`, in file order — appends
exactly one extra row equal to the column-wise arithmetic mean of all kept
vectors, and maps the key `UNK` to the last row's index `|kept|`. -/
theorem create_embeddings_spec (vocab : List String)
    (file : List (String × List ℚ))
    (hnodup : ((keptLines vocab file).map Prod.fst).Nodup)
    (hunk : "UNK" ∉ (keptLines vocab file).map Prod.fst) :
    (create_embeddings vocab file).1 =
      (keptLines vocab file).map Prod.snd ++
        [vecMean ((keptLines vocab file).map Prod.snd)] ∧
    (create_embeddings vocab file).1.length =
      (keptLines vocab file).length + 1 ∧
    (∀ j (hj : j < (keptLines vocab file).length),
      dget (create_embeddings vocab file).2
        ((keptLines vocab file).get ⟨j, hj⟩).1 = some j) ∧
    dget (create_embeddings vocab file).2 "UNK" =
      some (keptLines vocab file).length := by
  have heq := create_embeddings_eq vocab file
  refine ⟨?_, ?_, ?_, ?_⟩
  case refine_1 => rw [heq]
  case refine_2 =>
    rw [heq]
    simp
  case refine_4 =>
    rw [heq]
    exact dget_append_last _ _ _
  intro j hj
  rw [heq]
  have hkey : ((keptLines vocab file).get ⟨j, hj⟩).1 ∈
      (keptLines vocab file).map Prod.fst :=
    List.mem_map_of_mem Prod.fst (List.get_mem _ _ _)
  have hne : "UNK" ≠ ((keptLines vocab file).get ⟨j, hj⟩).1 :=
    fun hcontra => hunk (hcontra ▸ hkey)
  rw [dget_append_single_ne _ _ _ _ hne]
  have hkeys : ((keptLines vocab file).enum.map
      (fun p => (p.2.1, p.1))).map Prod.fst =
      (keptLines vocab file).map Prod.fst := by
    rw [List.map_map]
    have hcomp : (Prod.fst ∘ fun p : Nat × (String × List ℚ) => (p.2.1, p.1)) =
        (Prod.fst ∘ Prod.snd) := rfl
    rw [hcomp, ← List.map_map, enum_map_snd_eq]
  have hj2 : j < ((keptLines vocab file).enum.map
      (fun p => (p.2.1, p.1))).length := by
    simpa using hj
  have hmain := dget_get_of_nodup _ (by rw [hkeys]; exact hnodup) j hj2
  have hget : ((keptLines vocab file).enum.map
      (fun p => (p.2.1, p.1))).get ⟨j, hj2⟩ =
      (((keptLines vocab file).get ⟨j, hj⟩).1, j) := by
    rw [List.get_eq_getElem, List.getElem_map]
    have henum : (keptLines vocab file).enum =
        (keptLines vocab file).enumFrom 0 := rfl
    simp [henum, List.getElem_enumFrom, List.get_eq_getElem]
  rw [hget] at hmain
  exact hmain

/-- Closed instance for `create_embeddings_spec`: with vocabulary
`{a, b}` and file lines `a, c, b`, the second kept token `b` is assigned
index `1`. -/
theorem create_embeddings_spec_witness :
    dget (create_embeddings ["a", "b"]
        [("a", [1, 2]), ("c", [5, 6]), ("b", [3, 4])]).2
      ((keptLines ["a", "b"]
        [("a", [1, 2]), ("c", [5, 6]), ("b", [3, 4])]).get ⟨1, by decide⟩).1 =
      some 1 :=
  (create_embeddings_spec ["a", "b"]
    [("a", [1, 2]), ("c", [5, 6]), ("b", [3, 4])]
    (by decide) (by decide)).2.2.1 1 (by decide)

/-- C1 as stated fails when the kept tokens may include the literal `UNK`:
with vocabulary `{UNK}` and the single file line `UNK`, the kept token
`UNK` is looked up at index `1 = |kept|`, outside `[0, |kept|)`, because the
final `UNK` assignment overwrites its file-order index `0`. -/
theorem create_embeddings_unk_collision :
    ¬ (∀ j (hj : j < (keptLines ["UNK"] [("UNK", [1])]).length),
        dget (create_embeddings ["UNK"] [("UNK", [1])]).2
          ((keptLines ["UNK"] [("UNK", [1])]).get ⟨j, hj⟩).1 = some j) := by
  intro hcontra
  exact absurd (hcontra 0 (by decide)) (by decide)

end DanUtil
